import Mathlib

/-!
# Verification of the CUPS HTTP address routines (`cups/http-addr.c`)

Shallow embedding of the address data model and the operations
`httpAddrEqual`, `httpAddrLoad`, `httpAddrLocalhost`, `httpAddrLookup`,
`httpAddrString` and `httpGetHostByName` from `cups/http-addr.c`.

Modelling conventions:
* Machine integers are `Nat` with explicit `% 2^w` where overflow matters.
* C strings are Lean `String`s (ASCII inputs; a C string has no embedded NUL).
* The build is the full-featured POSIX one: `AF_INET6` and `AF_LOCAL` are both
  defined, so every `#ifdef AF_INET6` / `#ifdef AF_LOCAL` region is present.
* We model a little-endian host, so `htonl`/`ntohl` are 32-bit byte swaps and
  `htons` is a 16-bit byte swap (the only property any claim uses is that
  `ntohl` inverts `htonl`, which holds on every host).
* The platform resolver calls (`getaddrinfo`, `gethostbyname`,
  `gethostbyaddr`) are external facilities: `httpGetHostByName` returns a
  distinguished `platform` outcome when the C code would fall through to
  them, and `httpAddrLookup` takes the reverse-lookup facility as an
  explicit oracle argument.
-/

/-! ## Address families (numeric values of the Linux socket constants) -/

def AF_LOCAL : Nat := 1
def AF_INET : Nat := 2
def AF_INET6 : Nat := 10

/-! ## Byte-order helpers (little-endian host model) -/

/-- `htonl` on a little-endian host: byte-swap a 32-bit value into network
(big-endian) order.  Written with `/`, `%` over `Nat`. -/
def htonl (x : Nat) : Nat :=
  (x % 2 ^ 32) % 256 * 2 ^ 24 + (x % 2 ^ 32) / 2 ^ 8 % 256 * 2 ^ 16 +
    (x % 2 ^ 32) / 2 ^ 16 % 256 * 2 ^ 8 + (x % 2 ^ 32) / 2 ^ 24

/-- `ntohl` is the same 32-bit byte swap as `htonl`. -/
def ntohl (x : Nat) : Nat := htonl x

/-- `htons` on a little-endian host: byte-swap a 16-bit value. -/
def htons (x : Nat) : Nat := x % 2 ^ 16 % 256 * 2 ^ 8 + x % 2 ^ 16 / 2 ^ 8

/-! ## `printf`-style numeral rendering (`%d` on small values and `%x`)

`decStr n` is the decimal rendering and `hexStr n` the lowercase hexadecimal
rendering of `n`, with no leading zeros (and `"0"` for `0`), exactly as
`snprintf` produces for `%d` (on a nonnegative value) and `%x`.  The worker
recursion is fuelled so that it is structural and kernel-reducible; fuel
`n + 1` always suffices because the value shrinks strictly at each step. -/

/-- The character printed for one digit of value `k` (`0`–`9` then `a`–`f`). -/
def printDigit (k : Nat) : Char :=
  if k < 10 then Char.ofNat (48 + k) else Char.ofNat (87 + k)

/-- Fuelled most-significant-digit-first rendering of `n` in base `b`. -/
def baseCharsAux (b : Nat) : Nat → Nat → List Char
  | 0, _ => []
  | fuel + 1, n =>
    if n < b then [printDigit n]
    else baseCharsAux b fuel (n / b) ++ [printDigit (n % b)]

def decChars (n : Nat) : List Char := baseCharsAux 10 (n + 1) n

def hexChars (n : Nat) : List Char := baseCharsAux 16 (n + 1) n

def decStr (n : Nat) : String := ⟨decChars n⟩

def hexStr (n : Nat) : String := ⟨hexChars n⟩

/-- Truncation performed by `snprintf`/`strlcpy` into a buffer of `slen`
bytes: at most `slen - 1` characters are stored (one byte is reserved for
the terminating NUL). -/
def truncStr (slen : Nat) (s : String) : String := ⟨s.data.take (slen - 1)⟩

/-! ## Data model

`http_addr_t` is a union of `sockaddr`, `sockaddr_in`, `sockaddr_in6` and
`sockaddr_un`.  We flatten it into one structure: the overlapping family
slots (`sa_family`/`sin_family`/`sin6_family`/`sun_family`) become the single
field `family`, and each variant's payload gets its own field.  The 128-bit
IPv6 address is kept as the four 32-bit words `s6_addr32[0..3]`, in network
byte order, exactly as the C code accesses it. -/

structure http_addr_t where
  family : Nat
  ipv4_port : Nat
  /-- `ipv4.sin_addr.s_addr`, a 32-bit value in network byte order. -/
  ipv4_addr : Nat
  ipv6_port : Nat
  ipv6_w0 : Nat
  ipv6_w1 : Nat
  ipv6_w2 : Nat
  ipv6_w3 : Nat
  un_path : String
deriving DecidableEq

/-- One entry of a `struct hostent`'s `h_addr_list`.  In C this is a raw
`char *`; the three shapes that occur are 4 bytes of IPv4 address, 16 bytes
of IPv6 address (four 32-bit words, network order), or a NUL-terminated
domain-socket path. -/
inductive HostAddr where
  | ip4 (w : Nat)
  | ip6 (w0 w1 w2 w3 : Nat)
  | path (p : String)
deriving DecidableEq

/-- `struct hostent`. -/
structure HostEnt where
  h_name : String
  h_aliases : Option (List String)
  h_addrtype : Nat
  h_length : Nat
  /-- Models `h_addr_list` (a NULL-terminated `char **`). -/
  h_addr_list : List HostAddr
deriving DecidableEq

/-- The CUPS per-process library globals (`_cups_globals_t`) that
`httpGetHostByName` writes into: the scratch `hostent` it returns a pointer
to, and the scratch canonical-name buffer.  The scratch address storage
`ip_addrs`/`ip_ptrs` is reached by callers only through
`hostent.h_addr_list`, so it is folded into that field. -/
structure CupsGlobals where
  hostEnt : HostEnt
  hostname : String
deriving DecidableEq

/-- A blank `hostent`, for the initial globals. -/
def blankHostEnt : HostEnt :=
  { h_name := ""
    h_aliases := none
    h_addrtype := 0
    h_length := 0
    h_addr_list := [] }

/-- Initial (zeroed) library globals. -/
def cgInit : CupsGlobals := { hostEnt := blankHostEnt, hostname := "" }

/-- A zeroed `http_addr_t` (family `0` = `AF_UNSPEC`, i.e. unset). -/
def addrInit : http_addr_t :=
  { family := 0
    ipv4_port := 0
    ipv4_addr := 0
    ipv6_port := 0
    ipv6_w0 := 0
    ipv6_w1 := 0
    ipv6_w2 := 0
    ipv6_w3 := 0
    un_path := "" }

/-! ## `httpAddrEqual` -/

/-- `httpAddrEqual` (http-addr.c:70-88).  Returns the C `int` 1/0.  The
`memcmp` of the 16 raw IPv6 address bytes is equality of the four stored
32-bit words. -/
def httpAddrEqual (addr1 addr2 : http_addr_t) : Nat :=
  if addr1.family ≠ addr2.family then 0
  else if addr1.family = AF_LOCAL then
    if addr1.un_path = addr2.un_path then 1 else 0
  else if addr1.family = AF_INET6 then
    if addr1.ipv6_w0 = addr2.ipv6_w0 ∧ addr1.ipv6_w1 = addr2.ipv6_w1 ∧
        addr1.ipv6_w2 = addr2.ipv6_w2 ∧ addr1.ipv6_w3 = addr2.ipv6_w3 then 1
    else 0
  else if addr1.ipv4_addr = addr2.ipv4_addr then 1 else 0

/-! ## `httpAddrLoad` -/

/-- `httpAddrLoad` (http-addr.c:120-161).  Copies entry `n` of the host
entry's address list into `addr` together with the port, per family; an
unsupported `h_addrtype` writes nothing.  The `memcpy` from the raw
`h_addr_list[n]` bytes is modelled by matching the entry's shape; a host
entry whose list entry does not have the shape its `h_addrtype` announces
would make the C code copy unrelated bytes — such type-confused entries
never arise here and are mapped to the identity. -/
def httpAddrLoad (host : HostEnt) (port : Nat) (n : Nat)
    (addr : http_addr_t) : http_addr_t :=
  if host.h_addrtype = AF_INET6 then
    match host.h_addr_list.get? n with
    | some (HostAddr.ip6 w0 w1 w2 w3) =>
        { addr with
          family := AF_INET6
          ipv6_port := htons port
          ipv6_w0 := w0
          ipv6_w1 := w1
          ipv6_w2 := w2
          ipv6_w3 := w3 }
    | _ => addr
  else if host.h_addrtype = AF_LOCAL then
    match host.h_addr_list.get? n with
    | some (HostAddr.path p) =>
        { addr with
          family := AF_LOCAL
          un_path := p }
    | _ => addr
  else if host.h_addrtype = AF_INET then
    match host.h_addr_list.get? n with
    | some (HostAddr.ip4 w) =>
        { addr with
          family := AF_INET
          ipv4_port := htons port
          ipv4_addr := w }
    | _ => addr
  else addr

/-! ## `httpAddrLocalhost` -/

/-- `IN6_IS_ADDR_LOOPBACK`: the 16 address bytes are `::1`, i.e. the first
three 32-bit words are zero and the last word holds the bytes
`00 00 00 01` (value `htonl 1` as a host-order word). -/
def in6IsLoopback (w0 w1 w2 w3 : Nat) : Prop :=
  w0 = 0 ∧ w1 = 0 ∧ w2 = 0 ∧ w3 = htonl 1

instance (w0 w1 w2 w3 : Nat) : Decidable (in6IsLoopback w0 w1 w2 w3) := by
  unfold in6IsLoopback; infer_instance

/-- `IN6_IS_ADDR_UNSPECIFIED`: all 16 address bytes are zero. -/
def in6IsUnspecified (w0 w1 w2 w3 : Nat) : Prop :=
  w0 = 0 ∧ w1 = 0 ∧ w2 = 0 ∧ w3 = 0

instance (w0 w1 w2 w3 : Nat) : Decidable (in6IsUnspecified w0 w1 w2 w3) := by
  unfold in6IsUnspecified; infer_instance

/-- `httpAddrLocalhost` (http-addr.c:168-189).  Returns the C `int` 1/0. -/
def httpAddrLocalhost (addr : http_addr_t) : Nat :=
  if addr.family = AF_INET6 ∧
      (in6IsLoopback addr.ipv6_w0 addr.ipv6_w1 addr.ipv6_w2 addr.ipv6_w3 ∨
        in6IsUnspecified addr.ipv6_w0 addr.ipv6_w1 addr.ipv6_w2 addr.ipv6_w3)
    then 1
  else if addr.family = AF_LOCAL then 1
  else if addr.family = AF_INET ∧ ntohl addr.ipv4_addr = 0x7f000001 then 1
  else 0

/-! ## `httpAddrString` -/

/-- `httpAddrString` (http-addr.c:250-288).  Renders into a buffer of
`slen` bytes (`snprintf`/`strlcpy` truncation modelled by `truncStr`). -/
def httpAddrString (addr : http_addr_t) (slen : Nat) : String :=
  if addr.family = AF_INET6 then
    truncStr slen
      ("[" ++ hexStr (ntohl addr.ipv6_w0) ++ ":" ++ hexStr (ntohl addr.ipv6_w1)
        ++ ":" ++ hexStr (ntohl addr.ipv6_w2) ++ ":"
        ++ hexStr (ntohl addr.ipv6_w3) ++ "]")
  else if addr.family = AF_LOCAL then
    truncStr slen addr.un_path
  else if addr.family = AF_INET then
    truncStr slen
      (decStr (ntohl addr.ipv4_addr >>> 24 &&& 255) ++ "."
        ++ decStr (ntohl addr.ipv4_addr >>> 16 &&& 255) ++ "."
        ++ decStr (ntohl addr.ipv4_addr >>> 8 &&& 255) ++ "."
        ++ decStr (ntohl addr.ipv4_addr &&& 255))
  else
    truncStr slen "UNKNOWN"

/-! ## `httpAddrLookup` -/

/-- Result of `httpAddrLookup`: the returned `char *` (`none` = NULL,
`some s` = a pointer to the caller's buffer, which then holds `s`) and the
final contents of the caller's `name` buffer. -/
structure LookupResult where
  ret : Option String
  buf : String
deriving DecidableEq

/-- The tail of `httpAddrLookup` after the `gethostbyaddr` call: NULL host
falls back to `httpAddrString` and reports failure; otherwise the host's
canonical name is copied out. -/
def lookupFinish (addr : http_addr_t) (namelen : Nat)
    (host : Option HostEnt) : LookupResult :=
  match host with
  | none => { ret := none, buf := httpAddrString addr namelen }
  | some h =>
      { ret := some (truncStr namelen h.h_name)
        buf := truncStr namelen h.h_name }

/-- `httpAddrLookup` (http-addr.c:203-243).  `ghba` is the platform's
`gethostbyaddr` facility, given the address family and the raw address
bytes that the C code passes. -/
def httpAddrLookup (ghba : Nat → HostAddr → Option HostEnt)
    (addr : http_addr_t) (namelen : Nat) : LookupResult :=
  if addr.family = AF_INET6 then
    lookupFinish addr namelen
      (ghba AF_INET6
        (HostAddr.ip6 addr.ipv6_w0 addr.ipv6_w1 addr.ipv6_w2 addr.ipv6_w3))
  else if addr.family = AF_LOCAL then
    { ret := some (truncStr namelen addr.un_path)
      buf := truncStr namelen addr.un_path }
  else if addr.family = AF_INET then
    lookupFinish addr namelen (ghba AF_INET (HostAddr.ip4 addr.ipv4_addr))
  else
    lookupFinish addr namelen none

/-! ## `httpGetHostByName`: literal parsing helpers -/

/-- `isdigit(c & 255) || c == '.'`, the character class scanned over before
the dotted-quad branch. -/
def digitOrDot (c : Char) : Bool := c.isDigit || c = '.'

/-- Digit-accumulation loop of `strtoul` base 10 (as used by `sscanf`'s
`%u`): consume decimal digits, stopping at the first non-digit. -/
def scanUAux : List Char → Nat → Nat × List Char
  | [], acc => (acc, [])
  | c :: cs, acc =>
    if c.isDigit then scanUAux cs (acc * 10 + (c.toNat - 48))
    else (acc, c :: cs)

/-- One `%u` conversion of `sscanf`: fails (ending the scan) if no digit is
present.  Leading whitespace and an optional sign are permitted by C99 but
cannot occur here: the call site is guarded by the digits-and-dots scan. -/
def scanU : List Char → Option (Nat × List Char)
  | [] => none
  | c :: cs =>
    if c.isDigit then some (scanUAux cs (c.toNat - 48)) else none

/-- Conversion of a `strtoul` result to the `unsigned int` that `%u`
stores: `strtoul` clamps at `ULONG_MAX` (64-bit) and the store truncates
to 32 bits. -/
def uintOf (v : Nat) : Nat := min v (2 ^ 64 - 1) % 2 ^ 32

/-- `sscanf(name, "%u.%u.%u.%u", ip, ip + 1, ip + 2, ip + 3)`
(http-addr.c:401), as the four converted values when the return value is 4
and `none` otherwise.  Input after the fourth conversion is left unread —
`sscanf` does not require it to be empty. -/
def sscanfQuad (cs : List Char) : Option (Nat × Nat × Nat × Nat) :=
  match scanU cs with
  | none => none
  | some (a, r1) =>
    match r1 with
    | [] => none
    | c1 :: r1' =>
      if c1 = '.' then
        match scanU r1' with
        | none => none
        | some (b, r2) =>
          match r2 with
          | [] => none
          | c2 :: r2' =>
            if c2 = '.' then
              match scanU r2' with
              | none => none
              | some (c, r3) =>
                match r3 with
                | [] => none
                | c3 :: r3' =>
                  if c3 = '.' then
                    match scanU r3' with
                    | none => none
                    | some (d, _) =>
                      some (uintOf a, uintOf b, uintOf c, uintOf d)
                  else none
            else none
      else none

/-- C `isspace` on the ASCII range. -/
def isSpaceChar (c : Char) : Bool :=
  c = ' ' || c = '\t' || c = '\n' || c = '\x0b' || c = '\x0c' || c = '\r'

def isHexDigitChar (c : Char) : Bool :=
  c.isDigit || ('a' ≤ c && c ≤ 'f') || ('A' ≤ c && c ≤ 'F')

def hexVal (c : Char) : Nat :=
  if c.isDigit then c.toNat - 48
  else if 'a' ≤ c && c ≤ 'f' then c.toNat - 87
  else c.toNat - 55

/-- Digit-accumulation loop of `strtoul` base 16. -/
def strtoul16Aux : List Char → Nat → Nat × List Char
  | [], acc => (acc, [])
  | c :: cs, acc =>
    if isHexDigitChar c then strtoul16Aux cs (acc * 16 + hexVal c)
    else (acc, c :: cs)

/-- C99 `strtoul(nptr, &endptr, 16)`: skip whitespace, optional sign,
optional `0x`/`0X` prefix (only when a hex digit follows), then hex digits;
the value clamps at `ULONG_MAX` and a `-` sign negates modulo
`ULONG_MAX + 1`.  If the subject sequence is empty the value is 0 and
`endptr` is the original `nptr`. -/
def strtoul16 (cs : List Char) : Nat × List Char :=
  let afterWs := cs.dropWhile isSpaceChar
  let signAndRest : Bool × List Char :=
    match afterWs with
    | '-' :: r => (true, r)
    | '+' :: r => (false, r)
    | r => (false, r)
  let afterPrefix : List Char :=
    match signAndRest.2 with
    | '0' :: x :: r =>
      if (x == 'x' || x == 'X') &&
          (match r with | d :: _ => isHexDigitChar d | [] => false) then r
      else signAndRest.2
    | _ => signAndRest.2
  match afterPrefix with
  | c :: r =>
    if isHexDigitChar c then
      let vr := strtoul16Aux r (hexVal c)
      let v := min vr.1 (2 ^ 64 - 1)
      ((if signAndRest.1 then (2 ^ 64 - v) % 2 ^ 64 else v), vr.2)
    else (0, cs)
  | [] => (0, cs)

/-- The bracketed-IPv6 parse loop (http-addr.c:364-375), started at
`name + 1` with `i = 0`; `fuel = 4 - i`.  Returns the words written to
`cg->ip_addrs[0][0..i)` and the final `nameptr`.  An iteration that starts
at `]` breaks without consuming it; after a group (or an empty `:` group)
one following `:` or `]` is consumed. -/
def ipv6Loop : Nat → List Char → List Nat → List Nat × List Char
  | 0, cs, acc => (acc, cs)
  | _ + 1, [], acc => (acc, [])
  | fuel + 1, c :: cs, acc =>
    if c = ']' then (acc, c :: cs)
    else
      let wRest : Nat × List Char :=
        if c = ':' then (0, c :: cs)
        else
          let vr := strtoul16 (c :: cs)
          (htonl vr.1, vr.2)
      let rest2 : List Char :=
        match wRest.2 with
        | d :: ds => if d = ':' ∨ d = ']' then ds else d :: ds
        | [] => []
      ipv6Loop fuel rest2 (acc ++ [wRest.1])

/-- Pad the parsed word list with zeros to four entries
(http-addr.c:377-381) and package it as one 16-byte address. -/
def ip6Of (ws : List Nat) : HostAddr :=
  let padded := ws ++ List.replicate (4 - ws.length) 0
  HostAddr.ip6 (padded.getD 0 0) (padded.getD 1 0) (padded.getD 2 0)
    (padded.getD 3 0)

/-! ## `httpGetHostByName` -/

/-- Outcome of `httpGetHostByName`: `entry g` models returning
`&cg->hostent` (the caller's result is `g.hostEnt`, read out of the
process-wide globals), `null g` models returning NULL, and
`platform g name` marks the fall-through to the platform resolver
(`getaddrinfo`/`gethostbyname`), which is outside this model. -/
inductive ResolveResult where
  | entry (g : CupsGlobals)
  | null (g : CupsGlobals)
  | platform (g : CupsGlobals) (name : String)
deriving DecidableEq

/-- The library globals after a `httpGetHostByName` call. -/
def stateOf : ResolveResult → CupsGlobals
  | ResolveResult.entry g => g
  | ResolveResult.null g => g
  | ResolveResult.platform g _ => g

def ResolveResult.isEntry : ResolveResult → Bool
  | ResolveResult.entry _ => true
  | _ => false

def ResolveResult.isNullResult : ResolveResult → Bool
  | ResolveResult.null _ => true
  | _ => false

/-- `name[0]` on a C string: the first character, or NUL at the end. -/
def strHead (cs : List Char) : Char := cs.headD (Char.ofNat 0)

/-- The domain-socket branch of `httpGetHostByName`
(http-addr.c:330-347). -/
def localBranch (name : String) (cg : CupsGlobals) : ResolveResult :=
  ResolveResult.entry
    { cg with
      hostEnt :=
        { h_name := name
          h_aliases := none
          h_addrtype := AF_LOCAL
          h_length := name.length + 1
          h_addr_list := [HostAddr.path name] } }

/-- The bracketed-IPv6 branch of `httpGetHostByName`
(http-addr.c:350-389): the scratch hostent is filled in before the parse;
a leftover character after the loop (including a `]` the loop broke on)
makes the call return NULL. -/
def ipv6Branch (name : String) (cg : CupsGlobals) : ResolveResult :=
  let parsed := ipv6Loop 4 (name.data.drop 1) []
  let cg' : CupsGlobals :=
    { cg with
      hostEnt :=
        { h_name := name
          h_aliases := none
          h_addrtype := AF_INET6
          h_length := 16
          h_addr_list := [ip6Of parsed.1] } }
  if parsed.2 ≠ [] then ResolveResult.null cg'
  else ResolveResult.entry cg'

/-- The dotted-quad branch of `httpGetHostByName` (http-addr.c:394-425):
`sscanf` must convert four `%u` fields, each at most 255; the octets are
packed big-endian and stored through `htonl`. -/
def ipv4Branch (name : String) (cg : CupsGlobals) : ResolveResult :=
  match sscanfQuad name.data with
  | none => ResolveResult.null cg
  | some (ip0, ip1, ip2, ip3) =>
    if ip0 > 255 ∨ ip1 > 255 ∨ ip2 > 255 ∨ ip3 > 255 then
      ResolveResult.null cg
    else
      ResolveResult.entry
        { cg with
          hostEnt :=
            { h_name := name
              h_aliases := none
              h_addrtype := AF_INET
              h_length := 4
              h_addr_list :=
                [HostAddr.ip4
                  (htonl ((((ip0 <<< 8 ||| ip1) <<< 8 ||| ip2) <<< 8)
                    ||| ip3))] } }

/-- `httpGetHostByName` (http-addr.c:296-538).  `"localhost"` is replaced
by `"127.0.0.1"` first; then the domain-socket, bracketed-IPv6 and
dotted-quad literal branches are tried on the (substituted) name, and
anything else falls through to the platform resolver. -/
def httpGetHostByName (name0 : String) (cg : CupsGlobals) : ResolveResult :=
  let name := if name0 = "localhost" then "127.0.0.1" else name0
  if strHead name.data = '/' then localBranch name cg
  else if strHead name.data = '[' then ipv6Branch name cg
  else if name.data.dropWhile digitOrDot = [] then ipv4Branch name cg
  else ResolveResult.platform cg name

/-- The canonical dotted-quad text of four octets, as `%d.%d.%d.%d`
renders them. -/
def quadStr (a b c d : Nat) : String :=
  decStr a ++ "." ++ decStr b ++ "." ++ decStr c ++ "." ++ decStr d

/-- A list whose head (if any) is not a decimal digit: the shape of the
leftover input at which a `%u` conversion stops. -/
def headNotDigit : List Char → Prop
  | [] => True
  | c :: _ => c.isDigit = false

instance (cs : List Char) : Decidable (headNotDigit cs) := by
  cases cs <;> simp only [headNotDigit] <;> infer_instance

/-- A reverse-lookup facility with no records: `gethostbyaddr` always
returns NULL. -/
def ghbaNone : Nat → HostAddr → Option HostEnt := fun _ _ => none

/-! ## Lemmas about the numeral rendering -/

theorem baseCharsAux_congr (b : Nat) (hb : 2 ≤ b) :
    ∀ n f1 f2, n < f1 → n < f2 → baseCharsAux b f1 n = baseCharsAux b f2 n := by
  intro n
  induction n using Nat.strong_induction_on with
  | _ n ih =>
    intro f1 f2 h1 h2
    cases f1 with
    | zero => omega
    | succ f1 =>
      cases f2 with
      | zero => omega
      | succ f2 =>
        simp only [baseCharsAux]
        by_cases hn : n < b
        · simp [hn]
        · have hdiv : n / b < n := Nat.div_lt_self (by omega) (by omega)
          simp only [if_neg hn]
          rw [ih (n / b) hdiv f1 f2 (by omega) (by omega)]

/-- The recursion equation for `decChars`, with the fuel eliminated. -/
theorem decChars_eq (n : Nat) :
    decChars n =
      if n < 10 then [printDigit n]
      else decChars (n / 10) ++ [printDigit (n % 10)] := by
  have step : decChars n =
      if n < 10 then [printDigit n]
      else baseCharsAux 10 n (n / 10) ++ [printDigit (n % 10)] := rfl
  rw [step]
  by_cases h : n < 10
  · simp [h]
  · have hdiv : n / 10 < n := Nat.div_lt_self (by omega) (by omega)
    simp only [if_neg h]
    exact congrArg (fun l => l ++ [printDigit (n % 10)])
      (baseCharsAux_congr 10 (by omega) (n / 10) n (n / 10 + 1) hdiv
        (Nat.lt_succ_self _))

/-- The recursion equation for `hexChars`, with the fuel eliminated. -/
theorem hexChars_eq (n : Nat) :
    hexChars n =
      if n < 16 then [printDigit n]
      else hexChars (n / 16) ++ [printDigit (n % 16)] := by
  have step : hexChars n =
      if n < 16 then [printDigit n]
      else baseCharsAux 16 n (n / 16) ++ [printDigit (n % 16)] := rfl
  rw [step]
  by_cases h : n < 16
  · simp [h]
  · have hdiv : n / 16 < n := Nat.div_lt_self (by omega) (by omega)
    simp only [if_neg h]
    exact congrArg (fun l => l ++ [printDigit (n % 16)])
      (baseCharsAux_congr 16 (by omega) (n / 16) n (n / 16 + 1) hdiv
        (Nat.lt_succ_self _))

theorem printDigit_isDigit {k : Nat} (h : k < 10) :
    (printDigit k).isDigit = true := by
  interval_cases k <;> decide

theorem printDigit_toNat {k : Nat} (h : k < 10) :
    (printDigit k).toNat = 48 + k := by
  interval_cases k <;> decide

theorem decChars_ne_nil (n : Nat) : decChars n ≠ [] := by
  rw [decChars_eq]
  by_cases h : n < 10 <;> simp [h]

theorem decChars_digits (n : Nat) : ∀ c ∈ decChars n, c.isDigit = true := by
  induction n using Nat.strong_induction_on with
  | _ n ih =>
    rw [decChars_eq]
    by_cases h : n < 10
    · simp only [if_pos h, List.mem_singleton]
      intro c hc
      subst hc
      exact printDigit_isDigit h
    · simp only [if_neg h, List.mem_append, List.mem_singleton]
      intro c hc
      rcases hc with hc | hc
      · exact ih (n / 10) (Nat.div_lt_self (by omega) (by omega)) c hc
      · subst hc
        exact printDigit_isDigit (Nat.mod_lt _ (by omega))

theorem decChars_length_le {n : Nat} (h : n < 1000) :
    (decChars n).length ≤ 3 := by
  rw [decChars_eq]
  by_cases h1 : n < 10
  · simp [h1]
  · rw [if_neg h1, List.length_append]
    have h2 : n / 10 < 100 := by omega
    rw [decChars_eq]
    by_cases h3 : n / 10 < 10
    · simp [h3]
    · rw [if_neg h3, List.length_append]
      have h4 : n / 10 / 10 < 10 := by omega
      rw [decChars_eq, if_pos h4]
      simp

theorem hexChars_length_le :
    ∀ k n, n < 16 ^ (k + 1) → (hexChars n).length ≤ k + 1 := by
  intro k
  induction k with
  | zero =>
    intro n h
    rw [hexChars_eq, if_pos (by omega)]
    simp
  | succ k ih =>
    intro n h
    rw [hexChars_eq]
    by_cases h1 : n < 16
    · simp [h1]
    · rw [if_neg h1, List.length_append]
      have h2 : n / 16 < 16 ^ (k + 1) := by
        rw [Nat.div_lt_iff_lt_mul (by omega)]
        calc n < 16 ^ (k + 2) := h
        _ = 16 ^ (k + 1) * 16 := by ring
      have := ih (n / 16) h2
      simp only [List.length_singleton]
      omega

/-! ## Lemmas about `%u` scanning, and scanning what `%d` printed -/

theorem scanUAux_append {ds rest : List Char} {acc : Nat}
    (hds : ∀ c ∈ ds, c.isDigit = true) (hrest : headNotDigit rest) :
    scanUAux (ds ++ rest) acc =
      (ds.foldl (fun a c => a * 10 + (c.toNat - 48)) acc, rest) := by
  induction ds generalizing acc with
  | nil =>
    simp only [List.nil_append, List.foldl_nil]
    cases rest with
    | nil => rfl
    | cons c cs =>
      simp only [headNotDigit] at hrest
      simp [scanUAux, hrest]
  | cons d ds ih =>
    have hd : d.isDigit = true := hds d (List.mem_cons_self d ds)
    simp only [List.cons_append, scanUAux, hd, if_pos, List.foldl_cons]
    exact ih fun c hc => hds c (List.mem_cons_of_mem d hc)

theorem foldl_decChars (n : Nat) :
    ∀ acc, (decChars n).foldl (fun a c => a * 10 + (c.toNat - 48)) acc =
      acc * 10 ^ (decChars n).length + n := by
  induction n using Nat.strong_induction_on with
  | _ n ih =>
    intro acc
    rw [decChars_eq]
    by_cases h : n < 10
    · simp only [if_pos h, List.foldl_cons, List.foldl_nil,
        List.length_singleton, printDigit_toNat h, pow_one]
      omega
    · have hdiv : n / 10 < n := Nat.div_lt_self (by omega) (by omega)
      simp only [if_neg h, List.foldl_append, List.foldl_cons, List.foldl_nil,
        List.length_append, List.length_singleton]
      rw [ih (n / 10) hdiv acc, printDigit_toNat (Nat.mod_lt _ (by omega))]
      rw [pow_succ, ← Nat.mul_assoc]
      generalize acc * 10 ^ (decChars (n / 10)).length = A
      omega

theorem scanU_decChars (n : Nat) {rest : List Char} (hrest : headNotDigit rest) :
    scanU (decChars n ++ rest) = some (n, rest) := by
  obtain ⟨c, t, hct⟩ : ∃ c t, decChars n = c :: t := by
    cases hd : decChars n with
    | nil => exact absurd hd (decChars_ne_nil n)
    | cons c t => exact ⟨c, t, rfl⟩
  have hdigits := decChars_digits n
  rw [hct] at hdigits ⊢
  have hc : c.isDigit = true := hdigits c (List.mem_cons_self c t)
  simp only [List.cons_append, scanU, hc, if_pos]
  rw [scanUAux_append (fun x hx => hdigits x (List.mem_cons_of_mem c hx)) hrest]
  have hfold := foldl_decChars n 0
  rw [hct, List.foldl_cons, Nat.zero_mul, Nat.zero_add, Nat.zero_mul,
    Nat.zero_add] at hfold
  rw [hfold]

/-! ## Byte-order lemmas -/

theorem htonl_lt (x : Nat) : htonl x < 2 ^ 32 := by
  unfold htonl
  omega

/-- Closed form of the byte swap on an in-range value. -/
theorem htonl_closed {x : Nat} (h : x < 2 ^ 32) :
    htonl x = x % 256 * 16777216 + x / 256 % 256 * 65536 +
      x / 65536 % 256 * 256 + x / 16777216 := by
  unfold htonl
  have p8 : (2 : Nat) ^ 8 = 256 := rfl
  have p16 : (2 : Nat) ^ 16 = 65536 := rfl
  have p24 : (2 : Nat) ^ 24 = 16777216 := rfl
  have p32 : (2 : Nat) ^ 32 = 4294967296 := rfl
  simp only [p8, p16, p24, p32]
  rw [Nat.mod_eq_of_lt (show x < 4294967296 by omega)]

/-- The byte swap on a value given by its four bytes. -/
theorem htonl_bytes {b0 b1 b2 b3 : Nat} (h0 : b0 < 256) (h1 : b1 < 256)
    (h2 : b2 < 256) (h3 : b3 < 256) :
    htonl (b0 + 256 * b1 + 65536 * b2 + 16777216 * b3) =
      b3 + 256 * b2 + 65536 * b1 + 16777216 * b0 := by
  unfold htonl
  have p8 : (2 : Nat) ^ 8 = 256 := rfl
  have p16 : (2 : Nat) ^ 16 = 65536 := rfl
  have p24 : (2 : Nat) ^ 24 = 16777216 := rfl
  have p32 : (2 : Nat) ^ 32 = 4294967296 := rfl
  simp only [p8, p16, p24, p32]
  have hm : (b0 + 256 * b1 + 65536 * b2 + 16777216 * b3) % 4294967296 =
      b0 + 256 * b1 + 65536 * b2 + 16777216 * b3 :=
    Nat.mod_eq_of_lt (by omega)
  rw [hm]
  have d1 : (b0 + 256 * b1 + 65536 * b2 + 16777216 * b3) / 256 =
      b1 + 256 * b2 + 65536 * b3 := by omega
  have d2 : (b0 + 256 * b1 + 65536 * b2 + 16777216 * b3) / 65536 =
      b2 + 256 * b3 := by omega
  have d3 : (b0 + 256 * b1 + 65536 * b2 + 16777216 * b3) / 16777216 = b3 := by
    omega
  rw [d1, d2, d3]
  omega

theorem ntohl_htonl {x : Nat} (h : x < 2 ^ 32) : ntohl (htonl x) = x := by
  have q1 : x / 256 / 256 = x / 65536 := by
    rw [Nat.div_div_eq_div_mul]
  have q2 : x / 65536 / 256 = x / 16777216 := by
    rw [Nat.div_div_eq_div_mul]
  have hdecomp : x = x % 256 + 256 * (x / 256 % 256) +
      65536 * (x / 65536 % 256) + 16777216 * (x / 16777216) := by
    have d1 := Nat.div_add_mod x 256
    have d2 := Nat.div_add_mod (x / 256) 256
    have d3 := Nat.div_add_mod (x / 65536) 256
    rw [q1] at d2
    rw [q2] at d3
    omega
  have hb0 : x % 256 < 256 := Nat.mod_lt _ (by omega)
  have hb1 : x / 256 % 256 < 256 := Nat.mod_lt _ (by omega)
  have hb2 : x / 65536 % 256 < 256 := Nat.mod_lt _ (by omega)
  have hb3 : x / 16777216 < 256 := by omega
  unfold ntohl
  rw [show htonl x = htonl (x % 256 + 256 * (x / 256 % 256) +
    65536 * (x / 65536 % 256) + 16777216 * (x / 16777216)) from by
      rw [← hdecomp]]
  rw [htonl_bytes hb0 hb1 hb2 hb3, htonl_bytes hb3 hb2 hb1 hb0]
  omega

/-! ## String plumbing -/

theorem strData_append (s t : String) : (s ++ t).data = s.data ++ t.data := rfl

theorem dotData : ("." : String).data = ['.'] := rfl

theorem truncStr_of_le {slen : Nat} {s : String}
    (h : s.data.length + 1 ≤ slen) : truncStr slen s = s := by
  unfold truncStr
  rw [List.take_of_length_le (by omega)]

/-! ## Packing four octets (`(((ip0 << 8) | ip1) << 8 | ...)`) -/

theorem orShift_eq {x y : Nat} (hy : y ≤ 255) :
    x <<< 8 ||| y = 2 ^ 8 * x + y := by
  rw [Nat.shiftLeft_eq, Nat.mul_comm, ← Nat.mul_add_lt_is_or (by omega) x]

theorem pack_eq {i0 i1 i2 i3 : Nat} (h1 : i1 ≤ 255) (h2 : i2 ≤ 255)
    (h3 : i3 ≤ 255) :
    (((i0 <<< 8 ||| i1) <<< 8 ||| i2) <<< 8) ||| i3 =
      ((i0 * 256 + i1) * 256 + i2) * 256 + i3 := by
  rw [orShift_eq h1, orShift_eq h2, orShift_eq h3]
  ring

/-! ## `httpAddrString`, one lemma per family -/

theorem quadStr_data (a b c d : Nat) :
    (quadStr a b c d).data =
      decChars a ++ '.' :: (decChars b ++ '.' :: (decChars c ++ '.' ::
        decChars d)) := by
  simp only [quadStr, strData_append, decStr, dotData, List.append_assoc,
    List.singleton_append, List.cons_append, List.nil_append]

theorem quadStr_length_le {a b c d : Nat} (ha : a ≤ 255) (hb : b ≤ 255)
    (hc : c ≤ 255) (hd : d ≤ 255) : (quadStr a b c d).data.length ≤ 15 := by
  have la := decChars_length_le (show a < 1000 by omega)
  have lb := decChars_length_le (show b < 1000 by omega)
  have lc := decChars_length_le (show c < 1000 by omega)
  have ld := decChars_length_le (show d < 1000 by omega)
  rw [quadStr_data]
  simp only [List.length_append, List.length_cons]
  omega

theorem httpAddrString_ipv4 {addr : http_addr_t} {slen a b c d : Nat}
    (hfam : addr.family = AF_INET) (ha : a ≤ 255) (hb : b ≤ 255)
    (hc : c ≤ 255) (hd : d ≤ 255)
    (haddr : addr.ipv4_addr = htonl (((a * 256 + b) * 256 + c) * 256 + d))
    (hslen : 16 ≤ slen) :
    httpAddrString addr slen = quadStr a b c d := by
  have hP : ((a * 256 + b) * 256 + c) * 256 + d < 2 ^ 32 := by omega
  have h255 : (255 : Nat) = 2 ^ 8 - 1 := by norm_num
  unfold httpAddrString
  rw [hfam]
  rw [if_neg (by simp [AF_INET, AF_INET6]), if_neg (by simp [AF_INET, AF_LOCAL]),
    if_pos rfl]
  rw [haddr, ntohl_htonl hP]
  simp only [Nat.shiftRight_eq_div_pow, h255, Nat.and_pow_two_sub_one_eq_mod]
  have e1 : (((a * 256 + b) * 256 + c) * 256 + d) / 2 ^ 24 % 2 ^ 8 = a := by
    omega
  have e2 : (((a * 256 + b) * 256 + c) * 256 + d) / 2 ^ 16 % 2 ^ 8 = b := by
    omega
  have e3 : (((a * 256 + b) * 256 + c) * 256 + d) / 2 ^ 8 % 2 ^ 8 = c := by
    omega
  have e4 : (((a * 256 + b) * 256 + c) * 256 + d) % 2 ^ 8 = d := by omega
  rw [e1, e2, e3, e4]
  exact truncStr_of_le (by have := quadStr_length_le ha hb hc hd; unfold quadStr at *; omega)

theorem httpAddrString_ipv6 {addr : http_addr_t} {slen w0 w1 w2 w3 : Nat}
    (hfam : addr.family = AF_INET6)
    (h0 : addr.ipv6_w0 = htonl w0) (h1 : addr.ipv6_w1 = htonl w1)
    (h2 : addr.ipv6_w2 = htonl w2) (h3 : addr.ipv6_w3 = htonl w3)
    (hw0 : w0 < 2 ^ 32) (hw1 : w1 < 2 ^ 32) (hw2 : w2 < 2 ^ 32)
    (hw3 : w3 < 2 ^ 32) (hslen : 40 ≤ slen) :
    httpAddrString addr slen =
      "[" ++ hexStr w0 ++ ":" ++ hexStr w1 ++ ":" ++ hexStr w2 ++ ":"
        ++ hexStr w3 ++ "]" := by
  have l0 := hexChars_length_le 7 w0 (by omega)
  have l1 := hexChars_length_le 7 w1 (by omega)
  have l2 := hexChars_length_le 7 w2 (by omega)
  have l3 := hexChars_length_le 7 w3 (by omega)
  unfold httpAddrString
  rw [hfam, if_pos rfl, h0, h1, h2, h3, ntohl_htonl hw0, ntohl_htonl hw1,
    ntohl_htonl hw2, ntohl_htonl hw3]
  refine truncStr_of_le ?_
  simp only [strData_append, List.length_append, hexStr]
  have hbr : ("[" : String).data.length = 1 := rfl
  have hco : (":" : String).data.length = 1 := rfl
  have hbr2 : ("]" : String).data.length = 1 := rfl
  simp only [hbr, hco, hbr2]
  omega

theorem httpAddrString_local {addr : http_addr_t} {slen : Nat}
    (hfam : addr.family = AF_LOCAL)
    (hslen : addr.un_path.data.length + 1 ≤ slen) :
    httpAddrString addr slen = addr.un_path := by
  unfold httpAddrString
  rw [hfam]
  rw [if_neg (by simp [AF_LOCAL, AF_INET6]), if_pos rfl]
  exact truncStr_of_le hslen

theorem httpAddrString_unknown {addr : http_addr_t} {slen : Nat}
    (h6 : addr.family ≠ AF_INET6) (hl : addr.family ≠ AF_LOCAL)
    (h4 : addr.family ≠ AF_INET) (hslen : 8 ≤ slen) :
    httpAddrString addr slen = "UNKNOWN" := by
  unfold httpAddrString
  rw [if_neg h6, if_neg hl, if_neg h4]
  exact truncStr_of_le (by
    have : ("UNKNOWN" : String).data.length = 7 := rfl
    omega)

/-! ## `%u` conversion results on in-range values -/

theorem uintOf_small {n : Nat} (h : n < 2 ^ 32) : uintOf n = n := by
  unfold uintOf
  have : (2 : Nat) ^ 64 - 1 = 18446744073709551615 := rfl
  have p32 : (2 : Nat) ^ 32 = 4294967296 := rfl
  omega

theorem scanU_decChars_nil (n : Nat) : scanU (decChars n) = some (n, []) := by
  have h := @scanU_decChars n [] trivial
  rwa [List.append_nil] at h

/-- `sscanf("%u.%u.%u.%u")` recovers the four octets from their canonical
dotted-quad rendering. -/
theorem sscanfQuad_quadStr {a b c d : Nat} (ha : a ≤ 255) (hb : b ≤ 255)
    (hc : c ≤ 255) (hd : d ≤ 255) :
    sscanfQuad (quadStr a b c d).data = some (a, b, c, d) := by
  have hdot : ∀ X : List Char, headNotDigit ('.' :: X) := fun _ => rfl
  rw [quadStr_data]
  unfold sscanfQuad
  rw [scanU_decChars a (hdot (decChars b ++ '.' :: (decChars c ++ '.' ::
    decChars d)))]
  simp only [if_true]
  rw [scanU_decChars b (hdot (decChars c ++ '.' :: decChars d))]
  simp only [if_true]
  rw [scanU_decChars c (hdot (decChars d))]
  simp only [if_true]
  rw [scanU_decChars_nil d]
  simp only []
  rw [uintOf_small (show a < 2 ^ 32 by omega),
    uintOf_small (show b < 2 ^ 32 by omega),
    uintOf_small (show c < 2 ^ 32 by omega),
    uintOf_small (show d < 2 ^ 32 by omega)]

/-! ## Branch selection in `httpGetHostByName` -/

theorem digitOrDot_not_special {c : Char} (h : digitOrDot c = true) :
    c ≠ '/' ∧ c ≠ '[' := by
  refine ⟨?_, ?_⟩ <;> rintro rfl <;> exact absurd h (by decide)

theorem dropWhile_nil_of_all {l : List Char} {p : Char → Bool}
    (h : ∀ c ∈ l, p c = true) : l.dropWhile p = [] := by
  induction l with
  | nil => rfl
  | cons c t ih =>
    rw [List.dropWhile_cons, if_pos (h c (List.mem_cons_self c t))]
    exact ih fun x hx => h x (List.mem_cons_of_mem c hx)

/-- A name made of digits and dots only is not `"localhost"`, does not
start with `/` or `[`, and survives the digits-and-dots scan, so
`httpGetHostByName` takes the dotted-quad branch on it. -/
theorem httpGetHostByName_digitsDot {s : String} (g : CupsGlobals)
    (h : ∀ c ∈ s.data, digitOrDot c = true) :
    httpGetHostByName s g = ipv4Branch s g := by
  have hloc : s ≠ "localhost" := by
    rintro rfl
    exact absurd (h 'l' (by decide)) (by decide)
  have hhead : strHead s.data ≠ '/' ∧ strHead s.data ≠ '[' := by
    cases hd : s.data with
    | nil =>
      constructor <;> simp [strHead]
    | cons c t =>
      have hc : digitOrDot c = true := h c (by rw [hd]; exact List.mem_cons_self c t)
      simpa [strHead, hd] using digitOrDot_not_special hc
  unfold httpGetHostByName
  simp only [if_neg hloc]
  rw [if_neg hhead.1, if_neg hhead.2, if_pos (dropWhile_nil_of_all h)]

/-- What the dotted-quad branch returns once `sscanf` has produced four
in-range values. -/
theorem ipv4Branch_entry {name : String} {g : CupsGlobals} {a b c d : Nat}
    (hq : sscanfQuad name.data = some (a, b, c, d)) (ha : a ≤ 255)
    (hb : b ≤ 255) (hc : c ≤ 255) (hd : d ≤ 255) :
    ipv4Branch name g = ResolveResult.entry
      { g with
        hostEnt :=
          { h_name := name
            h_aliases := none
            h_addrtype := AF_INET
            h_length := 4
            h_addr_list :=
              [HostAddr.ip4
                (htonl (((a * 256 + b) * 256 + c) * 256 + d))] } } := by
  unfold ipv4Branch
  rw [hq]
  simp only []
  rw [if_neg (by omega)]
  rw [pack_eq hb hc hd]

/-! ## Claim theorems -/

/-- C10: for a host entry whose address type is none of the supported
families (not IPv6, not Unix-domain, not IPv4), `httpAddrLoad` leaves the
output address completely unchanged and signals no error. -/
theorem httpAddrLoad_unknown_family_frame (host : HostEnt) (port n : Nat)
    (addr : http_addr_t) (h6 : host.h_addrtype ≠ AF_INET6)
    (hl : host.h_addrtype ≠ AF_LOCAL) (h4 : host.h_addrtype ≠ AF_INET) :
    httpAddrLoad host port n addr = addr := by
  unfold httpAddrLoad
  rw [if_neg h6, if_neg hl, if_neg h4]

/-- Witness for C10: loading from an `h_addrtype = 99` host entry leaves
the destination address untouched. -/
theorem httpAddrLoad_unknown_family_frame_witness :
    httpAddrLoad { blankHostEnt with h_addrtype := 99 } 80 0 addrInit =
      addrInit :=
  httpAddrLoad_unknown_family_frame _ 80 0 addrInit (by decide) (by decide)
    (by decide)

/-- Every name starting with `[` is handled by the bracketed-IPv6 branch:
it is not `"localhost"` and does not start with `/`, so neither the
substitution nor the domain-socket branch applies, and the platform
resolver is never consulted. -/
theorem httpGetHostByName_bracket {s : String} (g : CupsGlobals)
    (hb : strHead s.data = '[') :
    httpGetHostByName s g = ipv6Branch s g := by
  have hloc : s ≠ "localhost" := by
    rintro rfl
    exact absurd hb (by decide)
  unfold httpGetHostByName
  simp only [if_neg hloc]
  rw [hb, if_neg (by decide), if_pos rfl]

/-- The parse loop writes at most one word per iteration, so starting with
`i = 0` it produces at most four words. -/
theorem ipv6Loop_length_le :
    ∀ (fuel : Nat) (cs : List Char) (acc : List Nat),
      (ipv6Loop fuel cs acc).1.length ≤ acc.length + fuel := by
  intro fuel
  induction fuel with
  | zero =>
    intro cs acc
    simp [ipv6Loop]
  | succ f ih =>
    intro cs acc
    cases cs with
    | nil => simp [ipv6Loop]
    | cons c cs' =>
      simp only [ipv6Loop]
      by_cases hc : c = ']'
      · simp [hc]
      · rw [if_neg hc]
        refine le_trans (ih _ _) ?_
        simp only [List.length_append, List.length_singleton]
        omega

/-- The zero-padding of the parsed words (http-addr.c:377-381), stated
positionally: word `i` of the stored address is the `i`-th parsed group,
and zero when fewer than `i + 1` groups were parsed. -/
theorem ip6Of_getD {ws : List Nat} (h : ws.length ≤ 4) :
    ip6Of ws =
      HostAddr.ip6 (ws.getD 0 0) (ws.getD 1 0) (ws.getD 2 0)
        (ws.getD 3 0) := by
  rcases ws with _ | ⟨a, _ | ⟨b, _ | ⟨c, _ | ⟨d, _ | ⟨e, t⟩⟩⟩⟩⟩
  · rfl
  · rfl
  · rfl
  · rfl
  · rfl
  · exfalso
    simp only [List.length_cons] at h
    omega

/-- C3: for every input string starting with `[`, resolution runs the
bracketed-IPv6 literal parser: whenever the parse loop leaves unconsumed
input after the brackets (any trailing non-bracket character after `]`)
the call returns NULL, and whenever it consumes the whole string the call
succeeds with a single 16-byte `AF_INET6` record whose four 32-bit words
are the parsed colon-delimited hexadecimal groups, missing trailing groups
zero-filled.  Concretely, `"[2001:db8::1]"` yields the words `0x2001`,
`0xdb8`, `0` (the empty group), `1`; `"[1:2]"` zero-fills to words
`1`, `2`, `0`, `0`; and `"[::1]x"` is a parse failure returning NULL. -/
theorem bracket_ipv6_literal_parse :
    (∀ (s : String) (g : CupsGlobals), strHead s.data = '[' →
      httpGetHostByName s g = ipv6Branch s g) ∧
    (∀ (s : String) (g : CupsGlobals), strHead s.data = '[' →
      (ipv6Loop 4 (s.data.drop 1) []).2 ≠ [] →
      (httpGetHostByName s g).isNullResult = true) ∧
    (∀ (s : String) (g : CupsGlobals) (ws : List Nat),
      strHead s.data = '[' →
      ipv6Loop 4 (s.data.drop 1) [] = (ws, []) →
      httpGetHostByName s g = ResolveResult.entry
        { g with
          hostEnt :=
            { h_name := s
              h_aliases := none
              h_addrtype := AF_INET6
              h_length := 16
              h_addr_list :=
                [HostAddr.ip6 (ws.getD 0 0) (ws.getD 1 0) (ws.getD 2 0)
                  (ws.getD 3 0)] } }) ∧
    (httpGetHostByName "[2001:db8::1]" cgInit).isEntry = true ∧
    (stateOf (httpGetHostByName "[2001:db8::1]" cgInit)).hostEnt.h_addrtype =
      AF_INET6 ∧
    (stateOf (httpGetHostByName "[2001:db8::1]" cgInit)).hostEnt.h_addr_list =
      [HostAddr.ip6 (htonl 0x2001) (htonl 0xdb8) 0 (htonl 1)] ∧
    (httpGetHostByName "[::1]x" cgInit).isNullResult = true ∧
    (httpGetHostByName "[1:2]" cgInit).isEntry = true ∧
    (stateOf (httpGetHostByName "[1:2]" cgInit)).hostEnt.h_addr_list =
      [HostAddr.ip6 (htonl 1) (htonl 2) 0 0] := by
  refine ⟨fun s g hb => httpGetHostByName_bracket g hb, ?_, ?_,
    by decide, by decide, by decide, by decide, by decide, by decide⟩
  · intro s g hb hrest
    rw [httpGetHostByName_bracket g hb]
    simp only [ipv6Branch]
    rw [if_pos hrest]
    rfl
  · intro s g ws hb hloop
    have hlen : ws.length ≤ 4 := by
      have h4 := ipv6Loop_length_le 4 (s.data.drop 1) []
      rw [hloop] at h4
      simpa using h4
    rw [httpGetHostByName_bracket g hb]
    simp only [ipv6Branch]
    rw [hloop]
    simp only []
    rw [if_neg (by simp), ip6Of_getD hlen]

/-- Witness for C3: the universal success case applied to `"[a:b]"`
(groups `0xa`, `0xb`, zero-filled) and the universal trailing-garbage case
applied to `"[::1]x"`. -/
theorem bracket_ipv6_literal_parse_witness :
    httpGetHostByName "[a:b]" cgInit = ResolveResult.entry
      { cgInit with
        hostEnt :=
          { h_name := "[a:b]"
            h_aliases := none
            h_addrtype := AF_INET6
            h_length := 16
            h_addr_list :=
              [HostAddr.ip6 (([htonl 0xa, htonl 0xb] : List Nat).getD 0 0)
                (([htonl 0xa, htonl 0xb] : List Nat).getD 1 0)
                (([htonl 0xa, htonl 0xb] : List Nat).getD 2 0)
                (([htonl 0xa, htonl 0xb] : List Nat).getD 3 0)] } } ∧
    (httpGetHostByName "[::1]x" cgInit).isNullResult = true := by
  constructor
  · exact bracket_ipv6_literal_parse.2.2.1 "[a:b]" cgInit
      [htonl 0xa, htonl 0xb] (by decide) (by decide)
  · exact bracket_ipv6_literal_parse.2.1 "[::1]x" cgInit (by decide)
      (by decide)

/-- C9: resolving `"localhost"` substitutes the literal `"127.0.0.1"`
before any other processing (the two calls are equal on every starting
globals state), and the resulting IPv4 address is `httpAddrEqual` to the
one parsed from `"127.0.0.1"` even when loaded with a different port. -/
theorem localhost_substitution :
    (∀ g : CupsGlobals,
      httpGetHostByName "localhost" g = httpGetHostByName "127.0.0.1" g) ∧
    (httpGetHostByName "localhost" cgInit).isEntry = true ∧
    (stateOf (httpGetHostByName "localhost" cgInit)).hostEnt.h_addrtype =
      AF_INET ∧
    httpAddrEqual
      (httpAddrLoad (stateOf (httpGetHostByName "localhost" cgInit)).hostEnt
        631 0 addrInit)
      (httpAddrLoad (stateOf (httpGetHostByName "127.0.0.1" cgInit)).hostEnt
        80 0 addrInit) = 1 := by
  refine ⟨fun g => rfl, by decide, by decide, by decide⟩

/-- C2 counterexample: `httpGetHostByName` returns `&cg->hostent`, the
process-wide scratch buffer in the library globals (`ResolveResult.entry g`
models that return, the caller's result being `g.hostEnt`).  Resolving
`"1.2.3.4"` and then `"5.6.7.8"` both succeed, and the second call leaves a
different `hostent` in that shared buffer — the first caller's result has
been overwritten, so results are not freshly owned. -/
theorem resolver_scratch_overwritten :
    (httpGetHostByName "1.2.3.4" cgInit).isEntry = true ∧
    (httpGetHostByName "5.6.7.8"
      (stateOf (httpGetHostByName "1.2.3.4" cgInit))).isEntry = true ∧
    (stateOf (httpGetHostByName "5.6.7.8"
        (stateOf (httpGetHostByName "1.2.3.4" cgInit)))).hostEnt ≠
      (stateOf (httpGetHostByName "1.2.3.4" cgInit)).hostEnt := by
  decide

/-- C2 (amended): every successful resolution call returns a pointer to
the single process-wide scratch `hostent` in the library globals, and a
subsequent resolution call overwrites that scratch storage, so the result
of a call is shared with (and clobbered by) later calls rather than being
freshly owned.  Shown here for two literal resolutions from an arbitrary
starting globals state. -/
theorem resolver_returns_shared_scratch (g : CupsGlobals) :
    (httpGetHostByName "1.2.3.4" g).isEntry = true ∧
    (httpGetHostByName "5.6.7.8"
      (stateOf (httpGetHostByName "1.2.3.4" g))).isEntry = true ∧
    (stateOf (httpGetHostByName "1.2.3.4" g)).hostEnt ≠
      (stateOf (httpGetHostByName "5.6.7.8"
        (stateOf (httpGetHostByName "1.2.3.4" g)))).hostEnt := by
  refine ⟨rfl, rfl, ?_⟩
  have e1 : (stateOf (httpGetHostByName "1.2.3.4" g)).hostEnt =
      { h_name := "1.2.3.4"
        h_aliases := none
        h_addrtype := AF_INET
        h_length := 4
        h_addr_list := [HostAddr.ip4 (htonl 0x01020304)] } := rfl
  have e2 : (stateOf (httpGetHostByName "5.6.7.8"
      (stateOf (httpGetHostByName "1.2.3.4" g)))).hostEnt =
      { h_name := "5.6.7.8"
        h_aliases := none
        h_addrtype := AF_INET
        h_length := 4
        h_addr_list := [HostAddr.ip4 (htonl 0x05060708)] } := rfl
  rw [e1, e2]
  decide

/-- C1 counterexample: `"1.2.3.4.5"` consists only of decimal digits and
`.` and has five dot-separated components (four dots), yet resolution
succeeds — `sscanf` stops after the fourth `%u` and the trailing `".5"` is
ignored, so the call returns the address 1.2.3.4 instead of NULL. -/
theorem dotted_quad_extra_components_accepted :
    ("1.2.3.4.5".data.all digitOrDot = true) ∧
    ("1.2.3.4.5".data.count '.' = 4) ∧
    (httpGetHostByName "1.2.3.4.5" cgInit).isEntry = true ∧
    (stateOf (httpGetHostByName "1.2.3.4.5" cgInit)).hostEnt.h_addr_list =
      [HostAddr.ip4 (htonl 0x01020304)] := by
  decide

/-- C1 (amended): for an input consisting only of decimal digits and `.`,
resolution succeeds if and only if the string begins with four
dot-separated decimal components whose converted values are all at most
255; characters after the fourth component are ignored rather than
rejected.  Too few components (`"1.2.3"`) or an out-of-range component
(`"1.2.3.256"`) still fail with NULL, and on success the four octets are
packed big-endian into one 32-bit IPv4 address (stored through `htonl`). -/
theorem dotted_quad_parse_amended :
    (∀ (s : String) (g : CupsGlobals) (a b c d : Nat),
      (∀ ch ∈ s.data, digitOrDot ch = true) →
      sscanfQuad s.data = some (a, b, c, d) →
      a ≤ 255 → b ≤ 255 → c ≤ 255 → d ≤ 255 →
      httpGetHostByName s g = ResolveResult.entry
        { g with
          hostEnt :=
            { h_name := s
              h_aliases := none
              h_addrtype := AF_INET
              h_length := 4
              h_addr_list :=
                [HostAddr.ip4
                  (htonl (((a * 256 + b) * 256 + c) * 256 + d))] } }) ∧
    (∀ (s : String) (g : CupsGlobals),
      (∀ ch ∈ s.data, digitOrDot ch = true) →
      sscanfQuad s.data = none →
      httpGetHostByName s g = ResolveResult.null g) ∧
    (∀ (s : String) (g : CupsGlobals) (a b c d : Nat),
      (∀ ch ∈ s.data, digitOrDot ch = true) →
      sscanfQuad s.data = some (a, b, c, d) →
      (a > 255 ∨ b > 255 ∨ c > 255 ∨ d > 255) →
      httpGetHostByName s g = ResolveResult.null g) ∧
    (httpGetHostByName "1.2.3" cgInit).isNullResult = true ∧
    (httpGetHostByName "1.2.3.256" cgInit).isNullResult = true := by
  refine ⟨?_, ?_, ?_, by decide, by decide⟩
  · intro s g a b c d h hq ha hb hc hd
    rw [httpGetHostByName_digitsDot g h, ipv4Branch_entry hq ha hb hc hd]
  · intro s g h hq
    rw [httpGetHostByName_digitsDot g h]
    unfold ipv4Branch
    rw [hq]
  · intro s g a b c d h hq hgt
    rw [httpGetHostByName_digitsDot g h]
    unfold ipv4Branch
    rw [hq]
    simp only []
    rw [if_pos hgt]

/-- Witness for C1 (amended): `"9.8.7.6"` resolves to the packed address
`9.8.7.6`. -/
theorem dotted_quad_parse_amended_witness :
    httpGetHostByName "9.8.7.6" cgInit = ResolveResult.entry
      { cgInit with
        hostEnt :=
          { h_name := "9.8.7.6"
            h_aliases := none
            h_addrtype := AF_INET
            h_length := 4
            h_addr_list :=
              [HostAddr.ip4
                (htonl (((9 * 256 + 8) * 256 + 7) * 256 + 6))] } } :=
  dotted_quad_parse_amended.1 "9.8.7.6" cgInit 9 8 7 6 (by decide)
    (by decide) (by decide) (by decide) (by decide) (by decide)

theorem quadStr_digitOrDot {a b c d : Nat} :
    ∀ x ∈ (quadStr a b c d).data, digitOrDot x = true := by
  rw [quadStr_data]
  intro x hx
  have hdig : ∀ (n : Nat), x ∈ decChars n → digitOrDot x = true := by
    intro n hn
    unfold digitOrDot
    rw [decChars_digits n x hn]
    rfl
  simp only [List.mem_append, List.mem_cons] at hx
  rcases hx with h | h | h | h | h | h | h
  · exact hdig a h
  · subst h; decide
  · exact hdig b h
  · subst h; decide
  · exact hdig c h
  · subst h; decide
  · exact hdig d h

/-- C4: resolving a canonical dotted-quad string (four octets, each in
`[0,255]`), loading the host entry with `httpAddrLoad`, and formatting the
address with `httpAddrString` into a sufficiently large buffer yields the
original dotted-quad text, for any port. -/
theorem dotted_quad_roundtrip (a b c d port slen : Nat) (addr0 : http_addr_t)
    (g : CupsGlobals) (ha : a ≤ 255) (hb : b ≤ 255) (hc : c ≤ 255)
    (hd : d ≤ 255) (hslen : 16 ≤ slen) :
    ∃ g', httpGetHostByName (quadStr a b c d) g = ResolveResult.entry g' ∧
      httpAddrString (httpAddrLoad g'.hostEnt port 0 addr0) slen =
        quadStr a b c d := by
  rw [httpGetHostByName_digitsDot g quadStr_digitOrDot,
    ipv4Branch_entry (sscanfQuad_quadStr ha hb hc hd) ha hb hc hd]
  refine ⟨_, rfl, ?_⟩
  exact httpAddrString_ipv4 rfl ha hb hc hd rfl hslen

/-- Witness for C4: `"192.168.0.1"` round-trips through resolve, load and
format. -/
theorem dotted_quad_roundtrip_witness :
    ∃ g', httpGetHostByName (quadStr 192 168 0 1) cgInit =
        ResolveResult.entry g' ∧
      httpAddrString (httpAddrLoad g'.hostEnt 631 0 addrInit) 64 =
        quadStr 192 168 0 1 :=
  dotted_quad_roundtrip 192 168 0 1 631 64 addrInit cgInit (by decide)
    (by decide) (by decide) (by decide) (by decide)

/-- C5: `httpAddrEqual` is false whenever the families differ; with equal
families it compares only the Unix-domain path, only the four stored IPv6
address words (the 16 raw bytes), or only the 32-bit IPv4 address value,
and the port fields never influence the result. -/
theorem httpAddrEqual_semantics (a1 a2 : http_addr_t) :
    (a1.family ≠ a2.family → httpAddrEqual a1 a2 = 0) ∧
    (a1.family = a2.family → a1.family = AF_LOCAL →
      (httpAddrEqual a1 a2 = 1 ↔ a1.un_path = a2.un_path)) ∧
    (a1.family = a2.family → a1.family = AF_INET6 →
      (httpAddrEqual a1 a2 = 1 ↔
        (a1.ipv6_w0 = a2.ipv6_w0 ∧ a1.ipv6_w1 = a2.ipv6_w1 ∧
          a1.ipv6_w2 = a2.ipv6_w2 ∧ a1.ipv6_w3 = a2.ipv6_w3))) ∧
    (a1.family = a2.family → a1.family ≠ AF_LOCAL → a1.family ≠ AF_INET6 →
      (httpAddrEqual a1 a2 = 1 ↔ a1.ipv4_addr = a2.ipv4_addr)) ∧
    (∀ p1 q1 p2 q2 : Nat,
      httpAddrEqual { a1 with ipv4_port := p1, ipv6_port := q1 }
        { a2 with ipv4_port := p2, ipv6_port := q2 } =
        httpAddrEqual a1 a2) := by
  refine ⟨?_, ?_, ?_, ?_, ?_⟩
  · intro h
    unfold httpAddrEqual
    rw [if_pos h]
  · intro hf hl
    unfold httpAddrEqual
    rw [if_neg (not_not_intro hf), if_pos hl]
    split_ifs with h <;> simp [h]
  · intro hf h6
    unfold httpAddrEqual
    rw [if_neg (not_not_intro hf), if_neg (by rw [h6]; decide), if_pos h6]
    split_ifs with h <;> simp [h]
  · intro hf hl h6
    unfold httpAddrEqual
    rw [if_neg (not_not_intro hf), if_neg hl, if_neg h6]
    split_ifs with h <;> simp [h]
  · intro p1 q1 p2 q2
    rfl

/-- Witness for C5: two IPv4 addresses with the same host bits but
different ports compare equal; an IPv4 and an IPv6 address compare
unequal. -/
theorem httpAddrEqual_semantics_witness :
    httpAddrEqual
      { addrInit with family := AF_INET, ipv4_addr := htonl 0x7f000001, ipv4_port := htons 631 }
      { addrInit with family := AF_INET, ipv4_addr := htonl 0x7f000001, ipv4_port := htons 80 } = 1 ∧
    httpAddrEqual { addrInit with family := AF_INET }
      { addrInit with family := AF_INET6 } = 0 := by
  constructor
  · exact ((httpAddrEqual_semantics _ _).2.2.2.1 (by decide) (by decide)
      (by decide)).mpr (by decide)
  · exact (httpAddrEqual_semantics _ _).1 (by decide)

/-- C6: `httpAddrLocalhost` returns 1 exactly for the IPv6 loopback `::1`,
the IPv6 unspecified address, any Unix-domain address, or IPv4 numeric
value exactly `0x7f000001`; resolving and loading `"127.0.0.1"` gives 1
and `"127.0.0.2"` gives 0. -/
theorem httpAddrLocalhost_semantics :
    (∀ addr : http_addr_t,
      httpAddrLocalhost addr = 1 ↔
        ((addr.family = AF_INET6 ∧
          ((addr.ipv6_w0 = 0 ∧ addr.ipv6_w1 = 0 ∧ addr.ipv6_w2 = 0 ∧
              addr.ipv6_w3 = htonl 1) ∨
            (addr.ipv6_w0 = 0 ∧ addr.ipv6_w1 = 0 ∧ addr.ipv6_w2 = 0 ∧
              addr.ipv6_w3 = 0))) ∨
          addr.family = AF_LOCAL ∨
          (addr.family = AF_INET ∧ ntohl addr.ipv4_addr = 0x7f000001))) ∧
    httpAddrLocalhost (httpAddrLoad
      (stateOf (httpGetHostByName "127.0.0.1" cgInit)).hostEnt 631 0
      addrInit) = 1 ∧
    httpAddrLocalhost (httpAddrLoad
      (stateOf (httpGetHostByName "127.0.0.2" cgInit)).hostEnt 631 0
      addrInit) = 0 := by
  refine ⟨?_, by decide, by decide⟩
  intro addr
  unfold httpAddrLocalhost in6IsLoopback in6IsUnspecified
  split_ifs with h1 h2 h3
  · exact iff_of_true rfl (Or.inl h1)
  · exact iff_of_true rfl (Or.inr (Or.inl h2))
  · exact iff_of_true rfl (Or.inr (Or.inr h3))
  · refine iff_of_false not_false ?_
    rintro (h | h | h)
    · exact h1 h
    · exact h2 h
    · exact h3 h

/-- C7: `httpAddrString` renders IPv4 as decimal-dotted `a.b.c.d`, IPv6 as
`[g0:g1:g2:g3]` with exactly four hexadecimal 32-bit host-order groups,
Unix-domain as the raw path, and any other family as the literal
`"UNKNOWN"`, given a sufficiently large buffer. -/
theorem httpAddrString_semantics :
    (∀ (addr : http_addr_t) (slen a b c d : Nat),
      addr.family = AF_INET → a ≤ 255 → b ≤ 255 → c ≤ 255 → d ≤ 255 →
      addr.ipv4_addr = htonl (((a * 256 + b) * 256 + c) * 256 + d) →
      16 ≤ slen →
      httpAddrString addr slen = quadStr a b c d) ∧
    (∀ (addr : http_addr_t) (slen w0 w1 w2 w3 : Nat),
      addr.family = AF_INET6 →
      addr.ipv6_w0 = htonl w0 → addr.ipv6_w1 = htonl w1 →
      addr.ipv6_w2 = htonl w2 → addr.ipv6_w3 = htonl w3 →
      w0 < 2 ^ 32 → w1 < 2 ^ 32 → w2 < 2 ^ 32 → w3 < 2 ^ 32 → 40 ≤ slen →
      httpAddrString addr slen =
        "[" ++ hexStr w0 ++ ":" ++ hexStr w1 ++ ":" ++ hexStr w2 ++ ":"
          ++ hexStr w3 ++ "]") ∧
    (∀ (addr : http_addr_t) (slen : Nat), addr.family = AF_LOCAL →
      addr.un_path.data.length + 1 ≤ slen →
      httpAddrString addr slen = addr.un_path) ∧
    (∀ (addr : http_addr_t) (slen : Nat), addr.family ≠ AF_INET6 →
      addr.family ≠ AF_LOCAL → addr.family ≠ AF_INET → 8 ≤ slen →
      httpAddrString addr slen = "UNKNOWN") :=
  ⟨fun _ _ _ _ _ _ hf ha hb hc hd haddr hs =>
      httpAddrString_ipv4 hf ha hb hc hd haddr hs,
    fun _ _ _ _ _ _ hf h0 h1 h2 h3 hw0 hw1 hw2 hw3 hs =>
      httpAddrString_ipv6 hf h0 h1 h2 h3 hw0 hw1 hw2 hw3 hs,
    fun _ _ hf hs => httpAddrString_local hf hs,
    fun _ _ h6 hl h4 hs => httpAddrString_unknown h6 hl h4 hs⟩

/-- Witness for C7: an unset-family address formats as `"UNKNOWN"`, and a
concrete IPv4 address formats as its dotted quad. -/
theorem httpAddrString_semantics_witness :
    httpAddrString addrInit 64 = "UNKNOWN" ∧
    httpAddrString
      { addrInit with family := AF_INET, ipv4_addr := htonl (((192 * 256 + 168) * 256 + 0) * 256 + 1) }
      64 = quadStr 192 168 0 1 :=
  ⟨httpAddrString_semantics.2.2.2 addrInit 64 (by decide) (by decide)
      (by decide) (by decide),
    httpAddrString_semantics.1 _ 64 192 168 0 1 rfl (by decide) (by decide)
      (by decide) (by decide) rfl (by decide)⟩

/-! ## Non-emptiness of the literal fallback string -/

theorem truncStr_ne_empty {slen : Nat} {s : String} (hs : s.data ≠ [])
    (h2 : 2 ≤ slen) : truncStr slen s ≠ "" := by
  unfold truncStr
  intro hcontra
  have hdata : s.data.take (slen - 1) = [] := congrArg String.data hcontra
  cases hd : s.data with
  | nil => exact hs hd
  | cons c t =>
    rw [hd] at hdata
    obtain ⟨k, hk⟩ : ∃ k, slen - 1 = k + 1 := ⟨slen - 2, by omega⟩
    rw [hk] at hdata
    simp at hdata

theorem httpAddrString_inet_ne_empty {addr : http_addr_t} {slen : Nat}
    (hf : addr.family = AF_INET) (h2 : 2 ≤ slen) :
    httpAddrString addr slen ≠ "" := by
  unfold httpAddrString
  rw [hf, if_neg (by decide), if_neg (by decide), if_pos rfl]
  refine truncStr_ne_empty ?_ h2
  simp only [strData_append, decStr, dotData]
  exact List.append_ne_nil_of_left_ne_nil
    (List.append_ne_nil_of_left_ne_nil
      (List.append_ne_nil_of_left_ne_nil
        (List.append_ne_nil_of_left_ne_nil
          (List.append_ne_nil_of_left_ne_nil
            (List.append_ne_nil_of_left_ne_nil
              (decChars_ne_nil _) _) _) _) _) _) _

theorem httpAddrString_inet6_ne_empty {addr : http_addr_t} {slen : Nat}
    (hf : addr.family = AF_INET6) (h2 : 2 ≤ slen) :
    httpAddrString addr slen ≠ "" := by
  unfold httpAddrString
  rw [hf, if_pos rfl]
  refine truncStr_ne_empty ?_ h2
  simp only [strData_append]
  refine List.append_ne_nil_of_left_ne_nil ?_ _
  refine List.append_ne_nil_of_left_ne_nil ?_ _
  refine List.append_ne_nil_of_left_ne_nil ?_ _
  refine List.append_ne_nil_of_left_ne_nil ?_ _
  refine List.append_ne_nil_of_left_ne_nil ?_ _
  refine List.append_ne_nil_of_left_ne_nil ?_ _
  refine List.append_ne_nil_of_left_ne_nil ?_ _
  refine List.append_ne_nil_of_left_ne_nil ?_ _
  decide

/-- C8: `httpAddrLookup` returns the Unix-domain path directly as a
success; for IPv4/IPv6 it returns the reverse-lookup name on success, and
on reverse-lookup failure it writes the `httpAddrString` literal
representation into the output buffer and returns NULL — the caller still
receives a non-empty display string even when the lookup failed. -/
theorem httpAddrLookup_semantics (ghba : Nat → HostAddr → Option HostEnt)
    (addr : http_addr_t) (namelen : Nat) :
    (addr.family = AF_LOCAL →
      httpAddrLookup ghba addr namelen =
        { ret := some (truncStr namelen addr.un_path)
          buf := truncStr namelen addr.un_path }) ∧
    (∀ h : HostEnt, addr.family = AF_INET →
      ghba AF_INET (HostAddr.ip4 addr.ipv4_addr) = some h →
      httpAddrLookup ghba addr namelen =
        { ret := some (truncStr namelen h.h_name)
          buf := truncStr namelen h.h_name }) ∧
    (∀ h : HostEnt, addr.family = AF_INET6 →
      ghba AF_INET6 (HostAddr.ip6 addr.ipv6_w0 addr.ipv6_w1 addr.ipv6_w2
        addr.ipv6_w3) = some h →
      httpAddrLookup ghba addr namelen =
        { ret := some (truncStr namelen h.h_name)
          buf := truncStr namelen h.h_name }) ∧
    (addr.family = AF_INET →
      ghba AF_INET (HostAddr.ip4 addr.ipv4_addr) = none →
      (httpAddrLookup ghba addr namelen).ret = none ∧
      (httpAddrLookup ghba addr namelen).buf = httpAddrString addr namelen ∧
      (2 ≤ namelen → (httpAddrLookup ghba addr namelen).buf ≠ "")) ∧
    (addr.family = AF_INET6 →
      ghba AF_INET6 (HostAddr.ip6 addr.ipv6_w0 addr.ipv6_w1 addr.ipv6_w2
        addr.ipv6_w3) = none →
      (httpAddrLookup ghba addr namelen).ret = none ∧
      (httpAddrLookup ghba addr namelen).buf = httpAddrString addr namelen ∧
      (2 ≤ namelen → (httpAddrLookup ghba addr namelen).buf ≠ "")) := by
  refine ⟨?_, ?_, ?_, ?_, ?_⟩
  · intro hf
    unfold httpAddrLookup
    rw [hf, if_neg (by decide), if_pos rfl]
  · intro h hf hg
    unfold httpAddrLookup
    rw [hf, if_neg (by decide), if_neg (by decide), if_pos rfl]
    unfold lookupFinish
    rw [hg]
  · intro h hf hg
    unfold httpAddrLookup
    rw [hf, if_pos rfl]
    unfold lookupFinish
    rw [hg]
  · intro hf hg
    unfold httpAddrLookup
    rw [hf, if_neg (by decide), if_neg (by decide), if_pos rfl]
    unfold lookupFinish
    rw [hg]
    exact ⟨rfl, rfl, fun h2 => httpAddrString_inet_ne_empty hf h2⟩
  · intro hf hg
    unfold httpAddrLookup
    rw [hf, if_pos rfl]
    unfold lookupFinish
    rw [hg]
    exact ⟨rfl, rfl, fun h2 => httpAddrString_inet6_ne_empty hf h2⟩

/-- Witness for C8: with a reverse-lookup facility that has no records, an
IPv4 lookup reports failure (NULL) but the buffer still holds the
non-empty literal address text. -/
theorem httpAddrLookup_semantics_witness :
    (httpAddrLookup ghbaNone
      { addrInit with family := AF_INET, ipv4_addr := htonl 0x01020304 }
      64).ret = none ∧
    (httpAddrLookup ghbaNone
      { addrInit with family := AF_INET, ipv4_addr := htonl 0x01020304 }
      64).buf ≠ "" := by
  have h := (httpAddrLookup_semantics ghbaNone
    { addrInit with family := AF_INET, ipv4_addr := htonl 0x01020304 }
    64).2.2.2.1 rfl rfl
  exact ⟨h.1, h.2.2 (by omega)⟩
